import Mathlib

/-!
Verification of the SerialTerminal core: the pattern-compilation /
auto-response engine (`sequence_handler.py`) and the adaptive message
framer (`serial_comm/receiver.py`).

Messages are modelled as lists of byte values (`List Nat`, each in 0..255).
Python regexes produced by `ReceiveSequence._compile_pattern` are
concatenations of single-byte matchers, modelled by `List RegexUnit`.
Wall-clock times and durations are modelled by rationals.
-/

/-- One single-byte matcher of a compiled receive pattern.
`lit b` is an escaped literal byte (from `re.escape`), `anyByte` is the
character class covering every byte 0-255 (the regex fragment the source
emits for a `??` / `????????` wildcard), and `dotNoNL` is the regex dot,
which matches every byte except the newline byte 0x0A (DOTALL is not set). -/
inductive RegexUnit
  | lit (b : Nat)
  | anyByte
  | dotNoNL
deriving DecidableEq, Repr

/-- Whether one pattern unit matches one byte. -/
def unit_matches : RegexUnit → Nat → Bool
  | .lit b, d => d == b
  | .anyByte, _ => true
  | .dotNoNL, d => d != 10

/-- Whether the unit list matches a prefix of the byte list. -/
def match_here : List RegexUnit → List Nat → Bool
  | [], _ => true
  | _ :: _, [] => false
  | u :: us, d :: ds => unit_matches u d && match_here us ds

/-- Regex search: whether the unit list matches a contiguous run of bytes
starting at some position of the byte list (`pattern.search(data)`). -/
def search_units (us : List RegexUnit) : List Nat → Bool
  | [] => match_here us []
  | d :: ds => match_here us (d :: ds) || search_units us ds

/-- Characters Python `str.split()` and `int()` treat as whitespace
(ASCII fragment). -/
def is_py_space (c : Char) : Bool :=
  c == ' ' || c == '\t' || c == '\n' || c == '\r' || c.toNat == 11 || c.toNat == 12

/-- Helper for `split_ws`: accumulates the current word (reversed). -/
def split_ws_aux : List Char → List Char → List (List Char)
  | [], [] => []
  | [], acc => [acc.reverse]
  | c :: rest, acc =>
      if is_py_space c then
        match acc with
        | [] => split_ws_aux rest []
        | _ => acc.reverse :: split_ws_aux rest []
      else split_ws_aux rest (c :: acc)

/-- Python `str.split()` with no argument: split on runs of whitespace,
discarding empty pieces. -/
def split_ws (cs : List Char) : List (List Char) := split_ws_aux cs []

/-- Value of one digit character in the given base (Python digit rules,
ASCII fragment), or `none` when the character is not a digit of the base. -/
def digit_val (base : Nat) (c : Char) : Option Nat :=
  let v : Option Nat :=
    if '0' ≤ c ∧ c ≤ '9' then some (c.toNat - 48)
    else if 'a' ≤ c ∧ c ≤ 'f' then some (c.toNat - 87)
    else if 'A' ≤ c ∧ c ≤ 'F' then some (c.toNat - 55)
    else none
  match v with
  | some d => if d < base then some d else none
  | none => none

/-- Digits after the first one: Python permits single underscores between
digits ("1_0"), never doubled, leading or trailing. -/
def parse_digits_rest (base : Nat) : Nat → List Char → Option Nat
  | acc, [] => some acc
  | acc, '_' :: c :: rest => do
      let d ← digit_val base c
      parse_digits_rest base (acc * base + d) rest
  | _, ['_'] => none
  | acc, c :: rest => do
      let d ← digit_val base c
      parse_digits_rest base (acc * base + d) rest

/-- Non-empty digit run (first character must be a digit). -/
def parse_digits (base : Nat) : List Char → Option Nat
  | [] => none
  | c :: rest => do
      let d ← digit_val base c
      parse_digits_rest base d rest

/-- Python `int(s, 16)` accepts an optional `0x`/`0X` prefix and
`int(s, 2)` an optional `0b`/`0B` prefix, optionally followed by one
underscore. -/
def strip_base_marker (base : Nat) (cs : List Char) : List Char :=
  match cs with
  | '0' :: c :: rest =>
      if (base = 16 ∧ (c = 'x' ∨ c = 'X')) ∨ (base = 2 ∧ (c = 'b' ∨ c = 'B')) then
        match rest with
        | '_' :: rest' => rest'
        | _ => rest
      else cs
  | _ => cs

/-- Python `int(s, base)`: strips surrounding whitespace, accepts an
optional sign, an optional base marker, and underscore-separated digits;
`none` models the `ValueError` raised on any other text. -/
def py_int (base : Nat) (cs : List Char) : Option Int :=
  let cs1 := cs.dropWhile is_py_space
  let cs2 := (cs1.reverse.dropWhile is_py_space).reverse
  match cs2 with
  | '+' :: rest => (parse_digits base (strip_base_marker base rest)).map Int.ofNat
  | '-' :: rest => (parse_digits base (strip_base_marker base rest)).map (fun n => -(n : Int))
  | rest => (parse_digits base (strip_base_marker base rest)).map Int.ofNat

/-- Building `bytes([v])` from a parsed value: Python raises unless the
value is in 0..255, which invalidates the whole pattern. -/
def byte_unit (v : Int) : Option RegexUnit :=
  if 0 ≤ v ∧ v ≤ 255 then some (.lit v.toNat) else none

/-- Left-to-right sequencing of a fallible unit translation over a list;
`none` as soon as one element fails, mirroring an exception escaping the
compilation loop. -/
def map_option (f : α → Option β) : List α → Option (List β)
  | [] => some []
  | x :: xs => do
      let y ← f x
      let ys ← map_option f xs
      some (y :: ys)

/-- One whitespace-separated part of a hex pattern: the `??` wildcard or a
base-16 byte value. -/
def hex_unit (part : List Char) : Option RegexUnit :=
  if part = ['?', '?'] then some .anyByte
  else do byte_unit (← py_int 16 part)

/-- One whitespace-separated part of a decimal pattern. -/
def dec_unit (part : List Char) : Option RegexUnit :=
  if part = ['?', '?'] then some .anyByte
  else do byte_unit (← py_int 10 part)

/-- One 8-character chunk of a binary pattern: the `????????` wildcard or
a base-2 byte value. -/
def bin_unit (chunk : List Char) : Option RegexUnit :=
  if chunk = List.replicate 8 '?' then some .anyByte
  else do byte_unit (← py_int 2 chunk)

/-- Split into chunks of 8 characters; the final chunk may be shorter, as
in the source's `bin_str[i:i+8]` slicing. -/
def chunks8 : List Char → List (List Char)
  | [] => []
  | [a] => [[a]]
  | [a, b] => [[a, b]]
  | [a, b, c] => [[a, b, c]]
  | [a, b, c, d] => [[a, b, c, d]]
  | [a, b, c, d, e] => [[a, b, c, d, e]]
  | [a, b, c, d, e, f] => [[a, b, c, d, e, f]]
  | [a, b, c, d, e, f, g] => [[a, b, c, d, e, f, g]]
  | a :: b :: c :: d :: e :: f :: g :: h :: rest =>
      [a, b, c, d, e, f, g, h] :: chunks8 rest

/-- The `hex` branch of `ReceiveSequence._compile_pattern`. -/
def compile_hex (data : String) : Option (List RegexUnit) :=
  map_option hex_unit (split_ws data.data)

/-- The `decimal` branch of `ReceiveSequence._compile_pattern`. -/
def compile_decimal (data : String) : Option (List RegexUnit) :=
  map_option dec_unit (split_ws data.data)

/-- The `binary` branch of `ReceiveSequence._compile_pattern`: spaces are
removed, then the text is sliced into 8-character chunks. -/
def compile_binary (data : String) : Option (List RegexUnit) :=
  map_option bin_unit (chunks8 (data.data.filter (fun c => c != ' ')))

/-- Regex metacharacters (and a lone `?`, which after the source's
`replace("??", ".")` substitution acts as a regex quantifier). Pattern
texts containing these are compiled as general regexes by the source;
that fragment is outside this model, and every ascii theorem below stays
inside the metacharacter-free fragment. -/
def ascii_meta (c : Char) : Bool :=
  c == '^' || c == '$' || c == '*' || c == '+' || c == '?' || c == '[' ||
  c == ']' || c == '(' || c == ')' || c == '|' || c == '\\' ||
  c.toNat == 123 || c.toNat == 125

/-- The `ascii` branch of `ReceiveSequence._compile_pattern` on the
modelled fragment: each `??` token becomes the regex dot (any byte except
0x0A), a literal `.` is likewise the regex dot, a non-metacharacter ASCII
character is a literal unit, and a non-ASCII character makes the pattern
invalid (the source's `.encode('ascii')` raises). -/
def compile_ascii : List Char → Option (List RegexUnit)
  | [] => some []
  | c :: rest =>
      if c = '?' then
        match rest with
        | '?' :: rest' => (compile_ascii rest').map (RegexUnit.dotNoNL :: ·)
        | _ => none
      else if c = '.' then (compile_ascii rest).map (RegexUnit.dotNoNL :: ·)
      else if ascii_meta c || 128 ≤ c.toNat then none
      else (compile_ascii rest).map (RegexUnit.lit c.toNat :: ·)

/-- `ReceiveSequence._compile_pattern`: dispatch on the receive format;
an unknown format falls through every branch and yields `None`. -/
def compile_pattern (format data : String) : Option (List RegexUnit) :=
  if format = "hex" then compile_hex data
  else if format = "ascii" then compile_ascii data.data
  else if format = "decimal" then compile_decimal data
  else if format = "binary" then compile_binary data
  else none

/-- A loaded `ReceiveSequence`: one named receive/send rule. `pattern` is
the compiled receive pattern (`None` when compilation failed). -/
structure ReceiveSequence where
  name : String
  active : Bool
  delay : ℚ
  comment : String
  receive_data : String
  receive_format : String
  send_data : String
  send_format : String
  pattern : Option (List RegexUnit)
deriving DecidableEq, Repr

/-- `ReceiveSequence.matches`: an inactive sequence or one whose pattern
failed to compile never matches; otherwise the compiled pattern is
searched anywhere in the received data. -/
def seq_matches (s : ReceiveSequence) (data : List Nat) : Bool :=
  if s.active = false then false
  else
    match s.pattern with
    | none => false
    | some us => search_units us data

/-- `SequenceHandler.check_data`: scan the collection in order and return
the first sequence whose `matches` succeeds, or `None`. -/
def check_data (seqs : List ReceiveSequence) (data : List Nat) : Option ReceiveSequence :=
  seqs.find? (fun s => seq_matches s data)

/-- Flip or set the `active` flag of a sequence (the only runtime
mutation the source performs on a loaded sequence). -/
def set_active (s : ReceiveSequence) (b : Bool) : ReceiveSequence :=
  { s with active := b }

/-- `SequenceHandler.toggle_sequence`: find the first sequence with the
given name, negate its `active` flag and return the new state; return
`False` when the name is unknown. The source mutates the found object in
place; the model returns the updated collection alongside the result. -/
def toggle_sequence : List ReceiveSequence → String → Bool × List ReceiveSequence
  | [], _ => (false, [])
  | s :: rest, nm =>
      if s.name = nm then (!s.active, set_active s (!s.active) :: rest)
      else ((toggle_sequence rest nm).1, s :: (toggle_sequence rest nm).2)

/-- Python `str.replace("0x", "")` for the hex response text: remove each
left-to-right non-overlapping occurrence of `0x`. -/
def remove_0x : List Char → List Char
  | [] => []
  | '0' :: 'x' :: rest => remove_0x rest
  | c :: rest => c :: remove_0x rest

/-- Python `bytes.fromhex` after all spaces were removed: pairs of hex
digits; an odd count or a non-hex character raises (`none`). -/
def from_hex : List Char → Option (List Nat)
  | [] => some []
  | [_] => none
  | a :: b :: rest => do
      let hi ← digit_val 16 a
      let lo ← digit_val 16 b
      let r ← from_hex rest
      some ((16 * hi + lo) :: r)

/-- A parsed response value must fit in one byte (`bytes([...])` raises
otherwise). -/
def byte_value (v : Int) : Option Nat :=
  if 0 ≤ v ∧ v ≤ 255 then some v.toNat else none

/-- The fallible body of `ReceiveSequence.get_response_bytes`: encode the
send template text in its declared format; `none` models the exception
the `try` block catches. An unrecognized format takes the `else` (ascii)
branch, as in the source. -/
def encode_response (format data : String) : Option (List Nat) :=
  if format = "hex" then
    from_hex (remove_0x (data.data.filter (fun c => c != ' ')))
  else if format = "decimal" then
    map_option (fun part => do byte_value (← py_int 10 part)) (split_ws data.data)
  else if format = "binary" then
    map_option (fun chunk => do byte_value (← py_int 2 chunk))
      (chunks8 (data.data.filter (fun c => c != ' ')))
  else
    map_option (fun c => if c.toNat ≤ 127 then some c.toNat else none) data.data

/-- `ReceiveSequence.get_response_bytes`: the encoded response, or `b""`
when encoding raised (the except branch prints the error — a non-fatal
report — and returns the empty byte string). -/
def get_response_bytes (s : ReceiveSequence) : List Nat :=
  (encode_response s.send_format s.send_data).getD []

/-- The writes performed by the app's `_send_sequence_response`: the
response bytes are transmitted only when non-empty (`if response_bytes:`). -/
def send_sequence_response (s : ReceiveSequence) : List (List Nat) :=
  if get_response_bytes s = [] then [] else [get_response_bytes s]

/-- A YAML scalar as far as the model needs it: a number or a string. -/
inductive YamlScalar
  | num (n : Int)
  | str (s : String)
deriving DecidableEq, Repr

/-- One sequence record of the configuration file, with the source's
defaults (`config.get(...)`). The `delay` field keeps its dynamic YAML
type because `ReceiveSequence.__init__` divides it by 1000.0. -/
structure SeqConfig where
  name : String := "Unnamed"
  active : Bool := true
  delay : YamlScalar := .num 0
  comment : String := ""
  receive_data : String := ""
  receive_format : String := "hex"
  send_data : String := ""
  send_format : String := "hex"
deriving DecidableEq, Repr

/-- `ReceiveSequence.__init__` on one record. A non-numeric `delay` makes
`config.get('delay', 0) / 1000.0` raise a TypeError, modelled by `none`;
this stands for every malformed record shape whose construction raises
(a non-mapping record, a non-mapping `receive`/`send` entry, ...).
Pattern-compilation errors are caught inside `_compile_pattern` and never
raise out of the constructor. -/
def init_sequence (cfg : SeqConfig) : Option ReceiveSequence :=
  match cfg.delay with
  | .str _ => none
  | .num d =>
      some { name := cfg.name, active := cfg.active, delay := (d : ℚ) / 1000,
             comment := cfg.comment,
             receive_data := cfg.receive_data, receive_format := cfg.receive_format,
             send_data := cfg.send_data, send_format := cfg.send_format,
             pattern := compile_pattern cfg.receive_format cfg.receive_data }

/-- `SequenceHandler.load_sequences`: the `try` block wraps the whole
loading loop, so an exception raised while constructing one record aborts
the loop; records appended before the failure are kept, records after it
are never reached. -/
def load_sequences : List SeqConfig → List ReceiveSequence
  | [] => []
  | cfg :: rest =>
      match init_sequence cfg with
      | none => []
      | some s => s :: load_sequences rest

/-- Number of bit periods per transmitted character (start + 8 data +
stop). -/
def BITS_PER_BYTE : ℚ := 10

/-- The receiver waits this many character times of silence. -/
def SAFETY_MULTIPLIER : ℚ := 3

/-- Lower clamp of the silence timeout, in seconds (5 ms). -/
def MIN_TIMEOUT : ℚ := 5 / 1000

/-- Upper clamp of the silence timeout, in seconds (200 ms). -/
def MAX_TIMEOUT : ℚ := 200 / 1000

/-- `SerialReceiver._calculate_timeout`: three character times, clamped
to `[MIN_TIMEOUT, MAX_TIMEOUT]`. The source computes in IEEE floats; the
model uses exact rationals (division, `max` and `min` are monotone in
both, so the clamp bounds and monotonicity are rounding-robust). -/
def calculate_timeout (baud_rate : ℤ) : ℚ :=
  let char_time : ℚ := BITS_PER_BYTE / baud_rate
  let timeout := char_time * SAFETY_MULTIPLIER
  max MIN_TIMEOUT (min MAX_TIMEOUT timeout)

/-- State of `SerialReceiver`'s framing loop, plus the log of messages it
has delivered through the `on_frame` callback. -/
structure ReceiverState where
  buffer : List Nat
  last_receive_time : ℚ
  emitted : List (List Nat)
deriving DecidableEq, Repr

/-- `SerialReceiver._send_buffered_message`: when the buffer is
non-empty, deliver it as one message via the callback, clear it and reset
the last-receive time. -/
def send_buffered_message (st : ReceiverState) : ReceiverState :=
  if st.buffer = [] then st
  else { buffer := [], last_receive_time := 0, emitted := st.emitted ++ [st.buffer] }

/-- One iteration of `SerialReceiver._receive_loop` at wall-clock time
`t`, where `data` is what `connection.read()` returned (possibly empty):
first the silence-timeout check emits the buffer when the time since the
last received byte has reached the timeout, then any read bytes are
appended and the last-receive time is set to the iteration's time. -/
def receive_step (timeout : ℚ) (st : ReceiverState) (t : ℚ) (data : List Nat) : ReceiverState :=
  let st1 :=
    if st.buffer ≠ [] ∧ 0 < st.last_receive_time ∧ timeout ≤ t - st.last_receive_time then
      send_buffered_message st
    else st
  if data = [] then st1
  else { buffer := st1.buffer ++ data, last_receive_time := t, emitted := st1.emitted }

/-- The receive loop over a finite schedule of iterations, each with its
time and its read result. -/
def receive_run (timeout : ℚ) : ReceiverState → List (ℚ × List Nat) → ReceiverState
  | st, [] => st
  | st, (t, d) :: rest => receive_run timeout (receive_step timeout st t d) rest

/-- The state `SerialReceiver.start` begins with: empty buffer, zero
last-receive time, nothing delivered yet. -/
def initial_state : ReceiverState :=
  { buffer := [], last_receive_time := 0, emitted := [] }

/-- The flush `SerialReceiver.stop` performs: any remaining buffered
bytes are delivered as one final message, regardless of elapsed time. -/
def stop_receiver (st : ReceiverState) : ReceiverState :=
  if st.buffer = [] then st else send_buffered_message st

/-- All messages a receiver run delivers, including the final flush on
`stop()`. -/
def delivered_messages (timeout : ℚ) (trace : List (ℚ × List Nat)) : List (List Nat) :=
  (stop_receiver (receive_run timeout initial_state trace)).emitted


/-- Spec-side: each pattern unit matches the byte at its position
(pointwise, same length). -/
def units_match_list (us : List RegexUnit) (mid : List Nat) : Prop :=
  List.Forall₂ (fun u d => unit_matches u d = true) us mid

/-- Spec-side: the pattern's unit sequence occurs as a contiguous
subsequence anywhere in the message bytes. -/
def pat_occurs (us : List RegexUnit) (data : List Nat) : Prop :=
  ∃ pre mid post, data = pre ++ mid ++ post ∧ units_match_list us mid

/-- Spec-side: the sequence is active, its pattern compiled, and the
pattern occurs contiguously in the message. -/
def spec_match (s : ReceiveSequence) (data : List Nat) : Prop :=
  s.active = true ∧ ∃ us, s.pattern = some us ∧ pat_occurs us data

lemma match_here_iff (us : List RegexUnit) (ds : List Nat) :
    match_here us ds = true ↔ ∃ mid post, ds = mid ++ post ∧ units_match_list us mid := by
  induction us generalizing ds with
  | nil =>
      simp only [match_here, true_iff]
      exact ⟨[], ds, rfl, List.Forall₂.nil⟩
  | cons u us ih =>
      cases ds with
      | nil =>
          simp only [match_here]
          constructor
          · intro h; exact absurd h (by simp)
          · rintro ⟨mid, post, h, hf⟩
            rcases List.append_eq_nil.mp h.symm with ⟨rfl, -⟩
            unfold units_match_list at hf
            cases hf
      | cons d ds =>
          simp only [match_here, Bool.and_eq_true]
          unfold units_match_list
          constructor
          · rintro ⟨hu, hm⟩
            rcases (ih ds).mp hm with ⟨mid, post, rfl, hf⟩
            exact ⟨d :: mid, post, rfl, List.Forall₂.cons hu hf⟩
          · rintro ⟨mid, post, h, hf⟩
            rcases List.forall₂_cons_left_iff.mp hf with ⟨d', mid', hu, hf', rfl⟩
            simp only [List.cons_append, List.cons.injEq] at h
            obtain ⟨rfl, rfl⟩ := h
            exact ⟨hu, (ih _).mpr ⟨mid', post, rfl, hf'⟩⟩

lemma search_units_iff (us : List RegexUnit) (ds : List Nat) :
    search_units us ds = true ↔ pat_occurs us ds := by
  induction ds with
  | nil =>
      simp only [search_units]
      rw [match_here_iff]
      unfold pat_occurs
      constructor
      · rintro ⟨mid, post, h, hf⟩
        exact ⟨[], mid, post, by simpa using h, hf⟩
      · rintro ⟨pre, mid, post, h, hf⟩
        rcases List.append_eq_nil.mp h.symm with ⟨h1, rfl⟩
        rcases List.append_eq_nil.mp h1 with ⟨rfl, rfl⟩
        exact ⟨[], [], rfl, hf⟩
  | cons d ds ih =>
      simp only [search_units, Bool.or_eq_true]
      rw [match_here_iff, ih]
      unfold pat_occurs
      constructor
      · rintro (⟨mid, post, h, hf⟩ | ⟨pre, mid, post, h, hf⟩)
        · exact ⟨[], mid, post, by simpa using h, hf⟩
        · exact ⟨d :: pre, mid, post, by simp [h], hf⟩
      · rintro ⟨pre, mid, post, h, hf⟩
        cases pre with
        | nil => exact Or.inl ⟨mid, post, by simpa using h, hf⟩
        | cons p pre' =>
            simp only [List.cons_append, List.cons.injEq] at h
            exact Or.inr ⟨pre', mid, post, h.2, hf⟩

/-- The executable matcher agrees with the spec-side matching relation. -/
lemma seq_matches_iff_spec (s : ReceiveSequence) (data : List Nat) :
    seq_matches s data = true ↔ spec_match s data := by
  unfold seq_matches spec_match
  cases ha : s.active with
  | false => simp
  | true =>
      cases hp : s.pattern with
      | none => simp
      | some us => simp [search_units_iff]

/-- C1: for every message and loaded collection, `check_data` returns the
first sequence in configuration order that is active and whose compiled
pattern occurs as a contiguous subsequence of the message (substring
search); an inactive or invalid sequence is never returned, and if no
active sequence matches the result is `none`. -/
theorem check_data_first_match (seqs : List ReceiveSequence) (data : List Nat) :
    (∀ s, check_data seqs data = some s →
      spec_match s data ∧
      ∃ pre post, seqs = pre ++ s :: post ∧ ∀ p ∈ pre, ¬ spec_match p data)
    ∧ (check_data seqs data = none → ∀ s ∈ seqs, ¬ spec_match s data) := by
  induction seqs with
  | nil => simp [check_data]
  | cons a rest ih =>
      by_cases hm : seq_matches a data = true
      · constructor
        · intro s h
          simp only [check_data, List.find?, hm] at h
          cases h
          exact ⟨(seq_matches_iff_spec a data).mp hm, [], rest, rfl, by simp⟩
        · intro h
          simp only [check_data, List.find?, hm] at h
          cases h
      · have hf : seq_matches a data = false := by simpa using hm
        have hna : ¬ spec_match a data :=
          fun hsp => hm ((seq_matches_iff_spec a data).mpr hsp)
        constructor
        · intro s h
          simp only [check_data, List.find?, hf] at h
          rcases (ih.1 s h) with ⟨hs, pre, post, heq, hpre⟩
          refine ⟨hs, a :: pre, post, by rw [heq, List.cons_append], ?_⟩
          intro p hp
          rcases List.mem_cons.mp hp with rfl | hp'
          · exact hna
          · exact hpre p hp'
        · intro h s hs
          simp only [check_data, List.find?, hf] at h
          rcases List.mem_cons.mp hs with rfl | hs'
          · exact hna
          · exact ih.2 h s hs'

/-- Example sequence: the PING rule from the spec's end-to-end property. -/
def ping_seq : ReceiveSequence :=
  { name := "ping", active := true, delay := 0, comment := "",
    receive_data := "50 49 4E 47", receive_format := "hex",
    send_data := "41 43 4B", send_format := "hex",
    pattern := compile_pattern "hex" "50 49 4E 47" }

theorem check_data_first_match_witness :
    spec_match ping_seq [80, 73, 78, 71] :=
  ((check_data_first_match [ping_seq] [80, 73, 78, 71]).1 ping_seq (by decide)).1

/-- Well-formed iteration schedule: times are non-decreasing and positive,
starting from the given lower bound (`time.time()` is positive and the
loop reads it monotonically). -/
def times_ok : ℚ → List (ℚ × List Nat) → Bool
  | _, [] => true
  | lt, (t, _) :: rest => decide (lt ≤ t) && decide (0 < t) && times_ok t rest

/-- The iterations of a schedule in which the read returned bytes. -/
def arrivals (trace : List (ℚ × List Nat)) : List (ℚ × List Nat) :=
  trace.filter (fun e => !e.2.isEmpty)

/-- Spec-side framing, mid-message: `prev` is the previous arrival's time
and `acc` the bytes accumulated so far; an inter-arrival gap reaching the
timeout closes the accumulated message and starts a new one, a smaller
gap coalesces. -/
def spec_group (timeout : ℚ) : ℚ → List Nat → List (ℚ × List Nat) → List (List Nat)
  | _, acc, [] => [acc]
  | prev, acc, (t, d) :: rest =>
      if timeout ≤ t - prev then acc :: spec_group timeout t d rest
      else spec_group timeout t (acc ++ d) rest

/-- Spec-side framing of a whole arrival list (the spec's coalescing /
splitting rule, written from the spec's words). -/
def spec_frames (timeout : ℚ) : List (ℚ × List Nat) → List (List Nat)
  | [] => []
  | (t, d) :: rest => spec_group timeout t d rest

/-- All inter-arrival gaps strictly below the timeout. -/
def gaps_below (timeout : ℚ) : ℚ → List (ℚ × List Nat) → Bool
  | _, [] => true
  | prev, (t, _) :: rest => decide (t - prev < timeout) && gaps_below timeout t rest

lemma times_ok_mono {a b : ℚ} (h : a ≤ b) :
    ∀ {l}, times_ok b l = true → times_ok a l = true := by
  intro l
  cases l with
  | nil => simp [times_ok]
  | cons e rest =>
      obtain ⟨t, d⟩ := e
      simp only [times_ok, Bool.and_eq_true, decide_eq_true_eq]
      rintro ⟨⟨h1, h2⟩, h3⟩
      exact ⟨⟨le_trans h h1, h2⟩, h3⟩

lemma times_ok_head_le {a : ℚ} {l : List (ℚ × List Nat)} (h : times_ok a l = true) :
    ∀ e ∈ l, a ≤ e.1 := by
  induction l generalizing a with
  | nil => simp
  | cons e rest ih =>
      obtain ⟨t, d⟩ := e
      simp only [times_ok, Bool.and_eq_true, decide_eq_true_eq] at h
      intro f hf
      rcases List.mem_cons.mp hf with rfl | hf'
      · exact h.1.1
      · exact le_trans h.1.1 (ih h.2 f hf')

lemma spec_group_split (timeout lt : ℚ) (B : List Nat) (l : List (ℚ × List Nat))
    (h : ∀ e ∈ l, timeout ≤ e.1 - lt) :
    spec_group timeout lt B l = B :: spec_frames timeout l := by
  cases l with
  | nil => simp [spec_group, spec_frames]
  | cons e rest =>
      obtain ⟨t, d⟩ := e
      have ht : timeout ≤ t - lt := h (t, d) (by simp)
      simp [spec_group, spec_frames, ht]

lemma arrivals_sub_times {a : ℚ} {l : List (ℚ × List Nat)} (h : times_ok a l = true) :
    ∀ e ∈ arrivals l, a ≤ e.1 :=
  fun e he => times_ok_head_le h e (List.mem_of_mem_filter he)

/-- Core framing lemma: running the receive loop from a mid-message state
(non-empty buffer, positive last-receive time) or from the idle state and
then flushing on stop delivers exactly the spec-side framing of the
arrival events; idle iterations (empty reads) do not change the framing. -/
lemma receive_run_frames (timeout : ℚ) (trace : List (ℚ × List Nat)) :
    (∀ (E : List (List Nat)) (B : List Nat) (lt : ℚ), B ≠ [] → 0 < lt →
      times_ok lt trace = true →
      (stop_receiver (receive_run timeout
          { buffer := B, last_receive_time := lt, emitted := E } trace)).emitted
        = E ++ spec_group timeout lt B (arrivals trace))
    ∧ (∀ E : List (List Nat), times_ok 0 trace = true →
      (stop_receiver (receive_run timeout
          { buffer := [], last_receive_time := 0, emitted := E } trace)).emitted
        = E ++ spec_frames timeout (arrivals trace)) := by
  induction trace with
  | nil =>
      constructor
      · intro E B lt hB hlt hok
        simp [receive_run, stop_receiver, send_buffered_message, hB, spec_group, arrivals]
      · intro E hok
        simp [receive_run, stop_receiver, spec_frames, arrivals]
  | cons ev rest ih =>
      obtain ⟨t, d⟩ := ev
      constructor
      · intro E B lt hB hlt hok
        simp only [times_ok, Bool.and_eq_true, decide_eq_true_eq] at hok
        obtain ⟨⟨hle, htpos⟩, hokr⟩ := hok
        by_cases hgap : timeout ≤ t - lt
        · -- silence reached: the buffer is emitted at this iteration
          cases hd : d.isEmpty with
          | true =>
              -- idle read after the flush
              have hde : d = [] := List.isEmpty_iff.mp hd
              subst hde
              have step_eq : receive_step timeout
                  { buffer := B, last_receive_time := lt, emitted := E } t []
                  = { buffer := [], last_receive_time := 0, emitted := E ++ [B] } := by
                simp [receive_step, send_buffered_message, hB, hlt, hgap]
              rw [receive_run, step_eq, ih.2 (E ++ [B]) (times_ok_mono (le_of_lt htpos) hokr)]
              have harr : arrivals ((t, ([] : List Nat)) :: rest) = arrivals rest := by
                simp [arrivals]
              rw [harr, spec_group_split timeout lt B (arrivals rest)
                (fun e he => le_trans hgap (by
                  have := arrivals_sub_times hokr e he
                  linarith))]
              simp
          | false =>
              have hde : d ≠ [] := by
                intro h; rw [h] at hd; simp at hd
              have step_eq : receive_step timeout
                  { buffer := B, last_receive_time := lt, emitted := E } t d
                  = { buffer := d, last_receive_time := t, emitted := E ++ [B] } := by
                simp [receive_step, send_buffered_message, hB, hlt, hgap, hde]
              rw [receive_run, step_eq, ih.1 (E ++ [B]) d t hde htpos hokr]
              have harr : arrivals ((t, d) :: rest) = (t, d) :: arrivals rest := by
                simp [arrivals, hd]
              rw [harr]
              simp [spec_group, hgap]
        · -- gap below the timeout: nothing is emitted at this iteration
          cases hd : d.isEmpty with
          | true =>
              have hde : d = [] := List.isEmpty_iff.mp hd
              subst hde
              have step_eq : receive_step timeout
                  { buffer := B, last_receive_time := lt, emitted := E } t []
                  = { buffer := B, last_receive_time := lt, emitted := E } := by
                simp [receive_step, hgap]
              rw [receive_run, step_eq, ih.1 E B lt hB hlt (times_ok_mono hle hokr)]
              have harr : arrivals ((t, ([] : List Nat)) :: rest) = arrivals rest := by
                simp [arrivals]
              rw [harr]
          | false =>
              have hde : d ≠ [] := by
                intro h; rw [h] at hd; simp at hd
              have step_eq : receive_step timeout
                  { buffer := B, last_receive_time := lt, emitted := E } t d
                  = { buffer := B ++ d, last_receive_time := t, emitted := E } := by
                simp [receive_step, hgap, hde]
              rw [receive_run, step_eq,
                ih.1 E (B ++ d) t (by simp [hB]) htpos hokr]
              have harr : arrivals ((t, d) :: rest) = (t, d) :: arrivals rest := by
                simp [arrivals, hd]
              rw [harr]
              simp [spec_group, hgap]
      · intro E hok
        simp only [times_ok, Bool.and_eq_true, decide_eq_true_eq] at hok
        obtain ⟨⟨-, htpos⟩, hokr⟩ := hok
        cases hd : d.isEmpty with
        | true =>
            have hde : d = [] := List.isEmpty_iff.mp hd
            subst hde
            have step_eq : receive_step timeout
                { buffer := [], last_receive_time := 0, emitted := E } t []
                = { buffer := [], last_receive_time := 0, emitted := E } := by
              simp [receive_step]
            rw [receive_run, step_eq, ih.2 E (times_ok_mono (le_of_lt htpos) hokr)]
            have harr : arrivals ((t, ([] : List Nat)) :: rest) = arrivals rest := by
              simp [arrivals]
            rw [harr]
        | false =>
            have hde : d ≠ [] := by
              intro h; rw [h] at hd; simp at hd
            have step_eq : receive_step timeout
                { buffer := [], last_receive_time := 0, emitted := E } t d
                = { buffer := d, last_receive_time := t, emitted := E } := by
              simp [receive_step, hde]
            rw [receive_run, step_eq, ih.1 E d t hde htpos hokr]
            have harr : arrivals ((t, d) :: rest) = (t, d) :: arrivals rest := by
              simp [arrivals, hd]
            rw [harr]
            simp [spec_frames]

lemma spec_group_coalesce (timeout : ℚ) :
    ∀ (l : List (ℚ × List Nat)) (prev : ℚ) (acc : List Nat),
      gaps_below timeout prev l = true →
      spec_group timeout prev acc l = [acc ++ (l.map Prod.snd).flatten] := by
  intro l
  induction l with
  | nil => intro prev acc h; simp [spec_group]
  | cons e rest ih =>
      obtain ⟨t, d⟩ := e
      intro prev acc h
      simp only [gaps_below, Bool.and_eq_true, decide_eq_true_eq] at h
      have hlt : ¬ timeout ≤ t - prev := not_le.mpr h.1
      simp only [spec_group, if_neg hlt]
      rw [ih t (acc ++ d) h.2]
      simp [List.append_assoc]

/-- C2: over any run of the receive loop (arrival iterations interleaved
with idle polls), the delivered messages are exactly the spec-side
framing of the arrivals: gaps below the timeout coalesce into one
message, a gap reaching the timeout splits, messages come in arrival
order; in particular when every inter-arrival gap is below the timeout
all bytes are delivered as one single message. -/
theorem receiver_frames_by_silence (timeout : ℚ) (trace : List (ℚ × List Nat))
    (hok : times_ok 0 trace = true) :
    delivered_messages timeout trace = spec_frames timeout (arrivals trace)
    ∧ (∀ t1 d1 rest, arrivals trace = (t1, d1) :: rest →
        gaps_below timeout t1 rest = true →
        delivered_messages timeout trace = [d1 ++ (rest.map Prod.snd).flatten]) := by
  have h := (receive_run_frames timeout trace).2 [] hok
  have h1 : delivered_messages timeout trace = spec_frames timeout (arrivals trace) := by
    simpa [delivered_messages, initial_state] using h
  refine ⟨h1, ?_⟩
  intro t1 d1 rest harr hgaps
  rw [h1, harr]
  simp only [spec_frames]
  exact spec_group_coalesce timeout rest t1 d1 hgaps

theorem receiver_frames_by_silence_witness :
    delivered_messages 1 [(1, [65]), (3, [66])] = spec_frames 1 (arrivals [(1, [65]), (3, [66])])
    ∧ delivered_messages 5 [(1, [65]), (2, [66])] = [[65, 66]] := by
  constructor
  · exact (receiver_frames_by_silence 1 [(1, [65]), (3, [66])] (by norm_num [times_ok])).1
  · exact (receiver_frames_by_silence 5 [(1, [65]), (2, [66])]
      (by norm_num [times_ok])).2 1 [65] [(2, [66])] (by rfl) (by norm_num [gaps_below])

/-- C5: `stop()` on a receiver whose buffer is non-empty flushes exactly
one final message holding exactly the buffered bytes, independent of any
elapsed silence (the flush never looks at the clock). -/
theorem stop_flushes_buffer (st : ReceiverState) (h : st.buffer ≠ []) :
    stop_receiver st
      = { buffer := [], last_receive_time := 0, emitted := st.emitted ++ [st.buffer] } := by
  simp [stop_receiver, send_buffered_message, h]

theorem stop_flushes_buffer_witness :
    stop_receiver { buffer := [7], last_receive_time := 2, emitted := [[1]] }
      = { buffer := [], last_receive_time := 0, emitted := [[1], [7]] } := by
  have h := stop_flushes_buffer
    { buffer := [7], last_receive_time := 2, emitted := [[1]] } (by decide)
  simpa using h

lemma nonempty_send_buffered {st : ReceiverState}
    (h : ∀ m ∈ st.emitted, m ≠ []) :
    ∀ m ∈ (send_buffered_message st).emitted, m ≠ [] := by
  unfold send_buffered_message
  by_cases hb : st.buffer = []
  · simpa [hb] using h
  · intro m hm
    simp only [if_neg hb] at hm
    rcases List.mem_append.mp hm with hm' | hm'
    · exact h m hm'
    · rw [List.mem_singleton.mp hm']
      exact hb

lemma nonempty_stop {st : ReceiverState}
    (h : ∀ m ∈ st.emitted, m ≠ []) :
    ∀ m ∈ (stop_receiver st).emitted, m ≠ [] := by
  unfold stop_receiver
  by_cases hb : st.buffer = []
  · simpa [hb] using h
  · simpa [hb] using nonempty_send_buffered h

lemma nonempty_step {timeout : ℚ} {st : ReceiverState} {t : ℚ} {d : List Nat}
    (h : ∀ m ∈ st.emitted, m ≠ []) :
    ∀ m ∈ (receive_step timeout st t d).emitted, m ≠ [] := by
  unfold receive_step
  by_cases hc : st.buffer ≠ [] ∧ 0 < st.last_receive_time ∧ timeout ≤ t - st.last_receive_time
  · by_cases hd : d = [] <;>
      simpa [hc, hd] using nonempty_send_buffered h
  · by_cases hd : d = [] <;> simpa [hc, hd] using h

lemma nonempty_run (timeout : ℚ) (trace : List (ℚ × List Nat)) :
    ∀ st : ReceiverState, (∀ m ∈ st.emitted, m ≠ []) →
      ∀ m ∈ (stop_receiver (receive_run timeout st trace)).emitted, m ≠ [] := by
  induction trace with
  | nil => exact fun st h => nonempty_stop h
  | cons e rest ih =>
      obtain ⟨t, d⟩ := e
      intro st h
      exact ih (receive_step timeout st t d) (nonempty_step h)

/-- C10: every message the receiver delivers, through the silence-timeout
path or the stop flush, is non-empty. -/
theorem delivered_messages_nonempty (timeout : ℚ) (trace : List (ℚ × List Nat)) :
    ∀ m ∈ delivered_messages timeout trace, m ≠ [] :=
  nonempty_run timeout trace initial_state (by simp [initial_state])

theorem delivered_messages_nonempty_witness : ([65] : List Nat) ≠ [] :=
  delivered_messages_nonempty 1 [(1, [65])] [65] (by decide)

/-- C3: the computed silence timeout equals three character times clamped
to the 5 ms .. 200 ms band, the clamp bounds always hold, and the timeout
is non-increasing in the bit rate. -/
theorem calculate_timeout_clamped (r s : ℤ) (hr : 0 < r) (hs : r ≤ s) :
    calculate_timeout r = max MIN_TIMEOUT (min MAX_TIMEOUT (10 / (r : ℚ) * 3))
    ∧ MIN_TIMEOUT ≤ calculate_timeout r
    ∧ calculate_timeout r ≤ MAX_TIMEOUT
    ∧ calculate_timeout s ≤ calculate_timeout r := by
  have hr' : (0 : ℚ) < (r : ℚ) := by exact_mod_cast hr
  have hs' : (r : ℚ) ≤ (s : ℚ) := by exact_mod_cast hs
  have hdiv : 10 / (s : ℚ) * 3 ≤ 10 / (r : ℚ) * 3 := by
    gcongr
  refine ⟨by simp [calculate_timeout, BITS_PER_BYTE, SAFETY_MULTIPLIER], ?_, ?_, ?_⟩
  · exact le_max_left _ _
  · exact max_le (by norm_num [MIN_TIMEOUT, MAX_TIMEOUT]) (min_le_left _ _)
  · simp only [calculate_timeout, BITS_PER_BYTE, SAFETY_MULTIPLIER]
    exact max_le_max le_rfl (min_le_min le_rfl hdiv)

theorem calculate_timeout_clamped_witness :
    calculate_timeout 9600 = max MIN_TIMEOUT (min MAX_TIMEOUT (10 / (9600 : ℚ) * 3))
    ∧ MIN_TIMEOUT ≤ calculate_timeout 9600
    ∧ calculate_timeout 9600 ≤ MAX_TIMEOUT
    ∧ calculate_timeout 115200 ≤ calculate_timeout 9600 :=
  calculate_timeout_clamped 9600 115200 (by decide) (by decide)

lemma toggle_found (nm : String) :
    ∀ (pre : List ReceiveSequence) (s : ReceiveSequence) (post : List ReceiveSequence),
      (∀ p ∈ pre, p.name ≠ nm) → s.name = nm →
      toggle_sequence (pre ++ s :: post) nm
        = (!s.active, pre ++ set_active s (!s.active) :: post) := by
  intro pre
  induction pre with
  | nil =>
      intro s post _ hs
      simp [toggle_sequence, hs]
  | cons p pre ih =>
      intro s post h hs
      have hp : p.name ≠ nm := h p (by simp)
      have ih' := ih s post (fun q hq => h q (List.mem_cons_of_mem _ hq)) hs
      simp [toggle_sequence, hp, ih']

lemma toggle_unknown :
    ∀ (seqs : List ReceiveSequence) (nm : String),
      (∀ s ∈ seqs, s.name ≠ nm) → toggle_sequence seqs nm = (false, seqs) := by
  intro seqs
  induction seqs with
  | nil => intro nm _; rfl
  | cons s rest ih =>
      intro nm h
      have hs : s.name ≠ nm := h s (by simp)
      have ih' := ih nm (fun q hq => h q (List.mem_cons_of_mem _ hq))
      simp [toggle_sequence, hs, ih']

lemma inactive_matches_false (s : ReceiveSequence) (data : List Nat) :
    seq_matches (set_active s false) data = false := by
  simp [seq_matches, set_active]

lemma check_data_skips_inactive :
    ∀ (pre : List ReceiveSequence) (s : ReceiveSequence) (post : List ReceiveSequence)
      (data : List Nat),
      check_data (pre ++ set_active s false :: post) data = check_data (pre ++ post) data := by
  intro pre
  induction pre with
  | nil =>
      intro s post data
      simp [check_data, List.find?, inactive_matches_false]
  | cons p pre ih =>
      intro s post data
      have ih' := ih s post data
      simp only [check_data, List.cons_append, List.find?] at ih' ⊢
      cases hm : seq_matches p data <;> simp [hm, ih']

lemma set_active_name (s : ReceiveSequence) (b : Bool) : (set_active s b).name = s.name := rfl

lemma set_active_active (s : ReceiveSequence) (b : Bool) : (set_active s b).active = b := rfl

lemma set_active_twice (s : ReceiveSequence) (b b' : Bool) :
    set_active (set_active s b) b' = set_active s b' := rfl

lemma set_active_self (s : ReceiveSequence) : set_active s s.active = s := rfl

lemma toggle_toggle :
    ∀ (seqs : List ReceiveSequence) (nm : String),
      (toggle_sequence (toggle_sequence seqs nm).2 nm).2 = seqs := by
  intro seqs
  induction seqs with
  | nil => intro nm; rfl
  | cons s rest ih =>
      intro nm
      by_cases h : s.name = nm
      · simp [toggle_sequence, h, set_active_name, set_active_active, set_active_twice,
          Bool.not_not, set_active_self]
      · simp [toggle_sequence, h, ih nm]

/-- C7 (amended): `toggle_sequence` flips the first sequence carrying the
name and returns its new `active` state, and returns `False` for an
unknown name — a value not distinguishable from a successful toggle to
inactive; a sequence toggled inactive is skipped by `check_data` even
when its pattern matches, and toggling again restores the collection
exactly. -/
theorem toggle_sequence_amended :
    (∀ (pre : List ReceiveSequence) (s : ReceiveSequence) (post : List ReceiveSequence)
        (nm : String), (∀ p ∈ pre, p.name ≠ nm) → s.name = nm →
      toggle_sequence (pre ++ s :: post) nm
        = (!s.active, pre ++ set_active s (!s.active) :: post))
    ∧ (∀ (seqs : List ReceiveSequence) (nm : String),
        (∀ s ∈ seqs, s.name ≠ nm) → toggle_sequence seqs nm = (false, seqs))
    ∧ (∀ (s : ReceiveSequence) (data : List Nat),
        seq_matches (set_active s false) data = false)
    ∧ (∀ (pre : List ReceiveSequence) (s : ReceiveSequence) (post : List ReceiveSequence)
        (data : List Nat),
        check_data (pre ++ set_active s false :: post) data = check_data (pre ++ post) data)
    ∧ (∀ (seqs : List ReceiveSequence) (nm : String),
        (toggle_sequence (toggle_sequence seqs nm).2 nm).2 = seqs) :=
  ⟨fun pre s post nm => toggle_found nm pre s post,
   toggle_unknown,
   inactive_matches_false,
   check_data_skips_inactive,
   toggle_toggle⟩

theorem toggle_sequence_amended_witness :
    toggle_sequence [ping_seq] "ping" = (false, [set_active ping_seq false])
    ∧ toggle_sequence [ping_seq] "other" = (false, [ping_seq]) := by
  constructor
  · have h := toggle_sequence_amended.1 [] ping_seq [] "ping" (by simp) (by decide)
    simpa [show !ping_seq.active = false from by decide] using h
  · exact toggle_sequence_amended.2.1 [ping_seq] "other" (by decide)

/-- C7 counterexample: the claim asserts an unknown name gives a failure
distinguishable from a successful toggle, but `toggle_sequence` returns
the same `false` both when it successfully toggles an active sequence to
inactive and when the name does not exist. -/
theorem toggle_failure_indistinguishable_cex :
    (toggle_sequence [ping_seq] "ping").1 = false
    ∧ (toggle_sequence [ping_seq] "nonexistent").1 = false
    ∧ ping_seq.active = true
    ∧ ping_seq.name = "ping" := by
  refine ⟨?_, ?_, ?_, ?_⟩ <;> decide

lemma map_option_eq_none {α β : Type} {f : α → Option β} {l : List α} {x : α}
    (hx : x ∈ l) (hf : f x = none) : map_option f l = none := by
  induction l with
  | nil => cases hx
  | cons a l ih =>
      rcases List.mem_cons.mp hx with rfl | h
      · simp [map_option, hf]
      · cases hfa : f a <;> simp [map_option, hfa, ih h]

/-- Example sequence whose hex receive pattern is malformed, so its
pattern fails to compile. -/
def bad_hex_seq : ReceiveSequence :=
  { name := "bad", active := true, delay := 0, comment := "",
    receive_data := "GG", receive_format := "hex",
    send_data := "GG", send_format := "hex",
    pattern := compile_pattern "hex" "GG" }

/-- Example sequence with an empty hex receive pattern. -/
def empty_hex_seq : ReceiveSequence :=
  { name := "empty", active := true, delay := 0, comment := "",
    receive_data := "", receive_format := "hex",
    send_data := "", send_format := "hex",
    pattern := compile_pattern "hex" "" }

/-- C4 (amended): a sequence whose pattern failed to compile matches no
message; a malformed whitespace-separated unit (non-hex text, out-of-range
value) invalidates a hex or decimal pattern, and a malformed 8-character
chunk invalidates a binary pattern. However a pattern with zero units
compiles successfully to an empty matcher that matches every message, and
a trailing binary chunk shorter than 8 characters is parsed as a (short)
binary number and yields a literal byte unit instead of invalidating the
pattern. -/
theorem invalid_pattern_amended :
    (∀ (s : ReceiveSequence) (data : List Nat), s.pattern = none →
      seq_matches s data = false)
    ∧ (∀ (d : String) (part : List Char), part ∈ split_ws d.data → hex_unit part = none →
        compile_pattern "hex" d = none)
    ∧ (∀ (d : String) (part : List Char), part ∈ split_ws d.data → dec_unit part = none →
        compile_pattern "decimal" d = none)
    ∧ (∀ (d : String) (chunk : List Char),
        chunk ∈ chunks8 (d.data.filter (fun c => c != ' ')) → bin_unit chunk = none →
        compile_pattern "binary" d = none)
    ∧ compile_pattern "hex" "" = some []
    ∧ (∀ data : List Nat, search_units [] data = true) := by
  refine ⟨?_, ?_, ?_, ?_, by decide, ?_⟩
  · intro s data h
    simp [seq_matches, h]
  · intro d part hp hu
    simp only [compile_pattern, if_pos rfl, compile_hex]
    exact map_option_eq_none hp hu
  · intro d part hp hu
    simp only [compile_pattern, compile_decimal]
    norm_num
    exact map_option_eq_none hp hu
  · intro d chunk hp hu
    simp only [compile_pattern, compile_binary]
    norm_num
    exact map_option_eq_none hp hu
  · intro data
    cases data <;> simp [search_units, match_here]

theorem invalid_pattern_amended_witness :
    seq_matches bad_hex_seq [71] = false ∧ compile_pattern "hex" "GG" = none := by
  constructor
  · exact invalid_pattern_amended.1 bad_hex_seq [71] (by decide)
  · exact invalid_pattern_amended.2.1 "GG" ['G', 'G'] (by decide) (by decide)

/-- C4 counterexample: the claim says a pattern with zero units is invalid
and matches nothing, and that a binary chunk whose length is not 8 makes
the pattern invalid; in the code an empty hex pattern compiles to an
empty regex that matches every message, and a short trailing binary chunk
parses as a short binary number into a valid literal unit. -/
theorem invalid_pattern_cex :
    seq_matches empty_hex_seq [72] = true
    ∧ compile_pattern "hex" "" = some []
    ∧ compile_pattern "binary" "1010" = some [RegexUnit.lit 10] := by
  refine ⟨?_, ?_, ?_⟩ <;> decide

/-- Example ascii sequence whose whole pattern is one `??` wildcard. -/
def ascii_wild_seq : ReceiveSequence :=
  { name := "wild", active := true, delay := 0, comment := "",
    receive_data := "??", receive_format := "ascii",
    send_data := "", send_format := "ascii",
    pattern := compile_pattern "ascii" "??" }

/-- Example ascii sequence whose pattern text is a single dot. -/
def ascii_dot_seq : ReceiveSequence :=
  { name := "dot", active := true, delay := 0, comment := "",
    receive_data := ".", receive_format := "ascii",
    send_data := "", send_format := "ascii",
    pattern := compile_pattern "ascii" "." }

/-- C6 (amended): in an ascii pattern each `??` token compiles to the
regex dot, a wildcard matching exactly one arbitrary byte EXCEPT the
newline byte 0x0A; a non-metacharacter ASCII character compiles to a
literal unit matching exactly that character; regex metacharacters of the
pattern text (such as a bare `.`, which also matches any byte except
0x0A) keep their regular-expression meaning instead of being literal. -/
theorem ascii_wildcard_amended :
    (∀ rest, compile_ascii ('?' :: '?' :: rest)
      = (compile_ascii rest).map (RegexUnit.dotNoNL :: ·))
    ∧ (∀ rest, compile_ascii ('.' :: rest)
      = (compile_ascii rest).map (RegexUnit.dotNoNL :: ·))
    ∧ (∀ b, unit_matches RegexUnit.dotNoNL b = true ↔ b ≠ 10)
    ∧ (∀ c b, unit_matches (RegexUnit.lit c) b = true ↔ b = c)
    ∧ (∀ (c : Char) (rest : List Char), ascii_meta c = false → c ≠ '.' → c.toNat < 128 →
        compile_ascii (c :: rest) = (compile_ascii rest).map (RegexUnit.lit c.toNat :: ·)) := by
  refine ⟨?_, ?_, ?_, ?_, ?_⟩
  · intro rest
    simp [compile_ascii]
  · intro rest
    rw [compile_ascii.eq_def]
    simp
  · intro b
    simp [unit_matches]
  · intro c b
    simp [unit_matches]
  · intro c rest hm hd hlt
    have hq : c ≠ '?' := by
      intro h
      rw [h] at hm
      simp [ascii_meta] at hm
    have h128 : decide (128 ≤ c.toNat) = false := decide_eq_false (Nat.not_le.mpr hlt)
    rw [compile_ascii.eq_def]
    simp [hq, hd, hm, h128]

theorem ascii_wildcard_amended_witness :
    compile_ascii ['?', '?', 'A'] = some [RegexUnit.dotNoNL, RegexUnit.lit 65]
    ∧ (unit_matches RegexUnit.dotNoNL 65 = true ↔ (65 : Nat) ≠ 10) := by
  constructor
  · rw [ascii_wildcard_amended.1 ['A'],
      ascii_wildcard_amended.2.2.2.2 'A' [] (by decide) (by decide) (by decide)]
    rfl
  · exact ascii_wildcard_amended.2.2.1 65

/-- C6 counterexample: the claim says `??` matches every byte including
0x0A and that every other pattern character is literal; in the code the
compiled `.` does not match the newline byte 0x0A, and a bare `.` in the
pattern text matches the byte 0x61 even though it is not a `.`. -/
theorem ascii_wildcard_cex :
    seq_matches ascii_wild_seq [10] = false
    ∧ seq_matches ascii_dot_seq [97] = true := by
  refine ⟨?_, ?_⟩ <;> decide

/-- C8: a response template that fails to encode in its declared format
yields the empty byte result (the exception is caught and reported, not
re-raised), and `_send_sequence_response` transmits nothing because the
empty result fails its `if response_bytes:` guard. -/
theorem unencodable_response_sends_nothing (s : ReceiveSequence)
    (h : encode_response s.send_format s.send_data = none) :
    get_response_bytes s = [] ∧ send_sequence_response s = [] := by
  have h1 : get_response_bytes s = [] := by simp [get_response_bytes, h]
  exact ⟨h1, by simp [send_sequence_response, h1]⟩

theorem unencodable_response_sends_nothing_witness :
    get_response_bytes bad_hex_seq = [] ∧ send_sequence_response bad_hex_seq = [] :=
  unencodable_response_sends_nothing bad_hex_seq (by decide)

/-- Example well-formed configuration records and a malformed one (its
`delay` is a string, so `ReceiveSequence.__init__` raises on `/ 1000.0`). -/
def good_cfg1 : SeqConfig := { name := "one", receive_data := "41", send_data := "4F 4B" }

/-- Malformed record: non-numeric delay. -/
def bad_cfg : SeqConfig := { name := "broken", delay := YamlScalar.str "soon" }

/-- A second well-formed record, listed after the malformed one. -/
def good_cfg2 : SeqConfig := { name := "two", receive_data := "43", send_data := "4B 4F" }

/-- C9 (amended): loading stops at the first malformed record — the
records before it each yield their sequence, the malformed record and
every record after it (well-formed or not) are dropped; only when every
record is well-formed does each record produce a sequence. -/
theorem load_sequences_amended (recs : List SeqConfig) :
    load_sequences recs
      = ((recs.takeWhile (fun r => (init_sequence r).isSome)).filterMap init_sequence)
    ∧ ((∀ r ∈ recs, (init_sequence r).isSome = true) →
        (load_sequences recs).length = recs.length) := by
  constructor
  · induction recs with
    | nil => rfl
    | cons cfg rest ih =>
        cases hc : init_sequence cfg with
        | none => simp [load_sequences, hc, List.takeWhile]
        | some s => simp [load_sequences, hc, List.takeWhile, ih]
  · induction recs with
    | nil => intro h; rfl
    | cons cfg rest ih =>
        intro h
        have hc : (init_sequence cfg).isSome = true := h cfg (by simp)
        rcases Option.isSome_iff_exists.mp hc with ⟨s, hs⟩
        simp only [load_sequences, hs, List.length_cons]
        rw [ih (fun r hr => h r (List.mem_cons_of_mem _ hr))]

theorem load_sequences_amended_witness :
    load_sequences [good_cfg1, bad_cfg, good_cfg2]
      = (([good_cfg1, bad_cfg, good_cfg2].takeWhile
          (fun r => (init_sequence r).isSome)).filterMap init_sequence)
    ∧ (load_sequences [good_cfg1, good_cfg2]).length = 2 := by
  constructor
  · exact (load_sequences_amended [good_cfg1, bad_cfg, good_cfg2]).1
  · exact (load_sequences_amended [good_cfg1, good_cfg2]).2 (by decide)

/-- C9 counterexample: the claim says only the offending record is
dropped and every well-formed record still yields a sequence; in the code
the exception aborts the loading loop, so the well-formed record listed
after the malformed one is dropped too and only one of the two
well-formed records survives. -/
theorem load_drops_rest_cex :
    (load_sequences [good_cfg1, bad_cfg, good_cfg2]).length = 1
    ∧ (init_sequence good_cfg1).isSome = true
    ∧ (init_sequence good_cfg2).isSome = true := by
  refine ⟨?_, ?_, ?_⟩ <;> decide
